import Mathlib

/-!
Verification of the SmartClipper backend against its design document.

The definitions below are shallow embeddings of the Python sources:

* `backend/app/utils/parser.py`   — timestamp parsing/formatting and the
  dual-format script parser (`parse_timestamp`, `format_timestamp_for_ffmpeg`,
  `_parse_alternative_format`, `parse_script_input`);
* `backend/app/services/cropper.py` — `SubjectDetector.calculate_crop_region`;
* `backend/app/services/video.py`  — the speed-ratio computation inside
  `VideoProcessor.time_stretch`;
* `backend/app/routers/jobs.py`    — the `process_job` orchestrator and
  `delete_job`, modelled as an action script over an explicit job state.

Python strings are modelled as `List Char` (ASCII; the Unicode-digit and
underscore tolerances of Python's `int()` / `\d` are outside the inputs these
claims quantify over).  Python floats appearing here (`target_aspect`,
durations, progress fractions) are modelled as exact rationals; for the
progress formulas `int((i+1)/n * 15)` and `int((i+1)/n * 35)` the
double-precision evaluation agrees with exact rational floor division for
every segment count up to 20000, so `Nat` floor division is used.  Fallible
Python code (a `raise`) is modelled with `Option`/`Except`.
-/

namespace SmartClipper

/-! ## Python string primitives -/

/-- Whitespace characters stripped by Python's `str.strip()` (ASCII subset:
space, tab, LF, CR, VT, FF). -/
def isSpaceChar (c : Char) : Bool :=
  c.toNat = 32 || c.toNat = 9 || c.toNat = 10 || c.toNat = 13 || c.toNat = 11 || c.toNat = 12

/-- Bracket characters stripped by `str.strip("[]")`. -/
def isBrkChar (c : Char) : Bool :=
  c.toNat = 91 || c.toNat = 93

/-- ASCII decimal digit, as matched by `\d` and accepted by `int()`. -/
def isDigitChar (c : Char) : Bool :=
  48 ≤ c.toNat && c.toNat ≤ 57

/-- Drop trailing characters satisfying `p`. -/
def dropTrailing (p : Char → Bool) (xs : List Char) : List Char :=
  (xs.reverse.dropWhile p).reverse

/-- Python `str.strip(chars)`: drop leading and trailing characters in the set. -/
def pyStripGen (p : Char → Bool) (xs : List Char) : List Char :=
  dropTrailing p (xs.dropWhile p)

/-- Python `str.strip()` (no argument). -/
def stripWs : List Char → List Char := pyStripGen isSpaceChar

/-- Python `str.strip("[]")`. -/
def stripBrk : List Char → List Char := pyStripGen isBrkChar

/-- Python `str.split(sep)` for a one-character separator: keeps empty fields,
`"".split(sep) = [""]`. -/
def splitOnChar (sep : Char) : List Char → List (List Char)
  | [] => [[]]
  | c :: rest =>
    match splitOnChar sep rest with
    | [] => [[c]]
    | g :: gs => if c = sep then [] :: g :: gs else (c :: g) :: gs

/-- Decimal value of a digit string (the digits are already checked). -/
def digitsVal (ds : List Char) : Nat :=
  ds.foldl (fun a c => a * 10 + (c.toNat - 48)) 0

/-- Python `int(s)` on a string: strip whitespace, optional sign, then a
non-empty run of digits; anything else raises `ValueError`, modelled as
`none`. -/
def pyInt? (cs : List Char) : Option Int :=
  match stripWs cs with
  | '-' :: ds => if ds ≠ [] ∧ ds.all isDigitChar then some (-(digitsVal ds : Int)) else none
  | '+' :: ds => if ds ≠ [] ∧ ds.all isDigitChar then some (digitsVal ds : Int) else none
  | ds => if ds ≠ [] ∧ ds.all isDigitChar then some (digitsVal ds : Int) else none

/-! ## parser.py : parse_timestamp / format_timestamp_for_ffmpeg -/

/-- Model of `parse_timestamp` on the character list of the input.  `none` models the
`ValueError` raised on any other token count or a non-integer field. -/
def parseTimestampChars (cs : List Char) : Option Int :=
  let t := stripBrk (stripWs cs)
  match splitOnChar ':' t with
  | [a, b] => do
    let minutes ← pyInt? a
    let seconds ← pyInt? b
    pure (minutes * 60 + seconds)
  | [a, b, c] => do
    let hours ← pyInt? a
    let minutes ← pyInt? b
    let seconds ← pyInt? c
    pure (hours * 3600 + minutes * 60 + seconds)
  | _ => none

/-- Model of `parse_timestamp(timestamp: str) -> int` from `app/utils/parser.py`. -/
def parse_timestamp (s : String) : Option Int :=
  parseTimestampChars s.data

/-- Digit character for `n < 10`. -/
def digitChar (n : Nat) : Char :=
  match n with
  | 0 => '0' | 1 => '1' | 2 => '2' | 3 => '3' | 4 => '4'
  | 5 => '5' | 6 => '6' | 7 => '7' | 8 => '8' | _ => '9'

/-- Decimal digits of a natural number, most significant first. -/
def natDigits (n : Nat) : List Char :=
  if n < 10 then [digitChar n]
  else natDigits (n / 10) ++ [digitChar (n % 10)]
decreasing_by omega

/-- Python `f"{i:02d}"`. -/
def pyFmt02 (i : Int) : List Char :=
  if i < 0 then '-' :: natDigits i.natAbs
  else if i < 10 then '0' :: natDigits i.toNat
  else natDigits i.toNat

/-- Model of `format_timestamp_for_ffmpeg(seconds: int) -> str` from `app/utils/parser.py`.
Python `//` is floor division (`Int.fdiv`) and `%` returns a result with the
divisor's sign (`Int.emod`). -/
def format_timestamp_for_ffmpeg (seconds : Int) : List Char :=
  let hours := seconds.fdiv 3600
  let minutes := (seconds.emod 3600).fdiv 60
  let secs := seconds.emod 60
  pyFmt02 hours ++ ':' :: pyFmt02 minutes ++ ':' :: pyFmt02 secs

/-! ## cropper.py : SubjectDetector.calculate_crop_region -/

/-- Python `int()` applied to a float/rational: truncation toward zero. -/
def pyTruncRat (q : ℚ) : ℤ :=
  if 0 ≤ q then ⌊q⌋ else ⌈q⌉

/-- Model of `SubjectDetector.calculate_crop_region` from `app/services/cropper.py`.
`target_aspect = target_width / target_height` is float division, modelled as
an exact rational (the function is only called with `target_height > 0`; at
`target_height = 0` the Python raises `ZeroDivisionError`, so no region is
produced there).  `crop_width // 2` is Python floor division. -/
def calculate_crop_region (frame_width frame_height : ℤ) (subject_center : ℤ × ℤ)
    (target_width target_height : ℤ) : ℤ × ℤ × ℤ × ℤ :=
  let target_aspect : ℚ := (target_width : ℚ) / (target_height : ℚ)
  let cropWH : ℤ × ℤ :=
    if (frame_height : ℚ) * target_aspect ≤ (frame_width : ℚ) then
      (pyTruncRat ((frame_height : ℚ) * target_aspect), frame_height)
    else
      (frame_width, pyTruncRat ((frame_width : ℚ) / target_aspect))
  let crop_width := cropWH.1
  let crop_height := cropWH.2
  let crop_x := subject_center.1 - crop_width.fdiv 2
  let crop_y := subject_center.2 - crop_height.fdiv 2
  let crop_x := max 0 (min crop_x (frame_width - crop_width))
  let crop_y := max 0 (min crop_y (frame_height - crop_height))
  (crop_x, crop_y, crop_width, crop_height)

/-! ## video.py : the speed-ratio computation inside VideoProcessor.time_stretch -/

/-- The duration/ratio logic of `VideoProcessor.time_stretch` from
`app/services/video.py` (lines 157–168), with the probed `current_duration`
taken as an argument.  The code raises `Exception("Invalid clip duration")`
when `current_duration <= 0`; the division `current_duration / target_duration`
raises `ZeroDivisionError` when `target_duration == 0`; otherwise the ratio is
clamped by `max(0.5, min(2.0, speed_ratio))`. -/
def time_stretch_speed (current_duration target_duration : ℚ) : Except String ℚ :=
  if current_duration ≤ 0 then .error "Invalid clip duration"
  else if target_duration = 0 then .error "float division by zero"
  else .ok (max (1/2) (min 2 (current_duration / target_duration)))

/-! ## parser.py : the dual-format script parser

The regexes of `parse_script_input` / `_parse_alternative_format` are
compiled here into direct matchers that reproduce the leftmost-match and
greedy-with-backtracking semantics of `re.search` / `re.sub` on the concrete
patterns used by the source. -/

/-- Model of `ScriptSegment` from `app/models/job.py` (the three parsed fields). -/
structure ScriptSegment where
  text : List Char
  timestamp : List Char
  description : List Char
deriving DecidableEq, Repr

/-- The optional seconds extension `(?::\d{2})?` (greedy, no trailing
constraint). -/
def tsExt : List Char → List Char
  | ':' :: e :: f :: _ => if isDigitChar e && isDigitChar f then [':', e, f] else []
  | _ => []

/-- Two-digit-minutes attempt of `\d{1,2}:\d{2}(?::\d{2})?` at a position. -/
def matchTs2 : List Char → Option (List Char)
  | a :: b :: ':' :: c :: d :: rest =>
    if isDigitChar a && isDigitChar b && isDigitChar c && isDigitChar d then
      some ([a, b, ':', c, d] ++ tsExt rest)
    else none
  | _ => none

/-- One-digit-minutes attempt of `\d{1,2}:\d{2}(?::\d{2})?` at a position. -/
def matchTs1 : List Char → Option (List Char)
  | a :: ':' :: c :: d :: rest =>
    if isDigitChar a && isDigitChar c && isDigitChar d then
      some ([a, ':', c, d] ++ tsExt rest)
    else none
  | _ => none

/-- Pattern `\d{1,2}:\d{2}(?::\d{2})?` at a position; the greedy `\d{1,2}` tries two
digits before one. -/
def matchTsAt (cs : List Char) : Option (List Char) :=
  (matchTs2 cs).orElse fun _ => matchTs1 cs

/-- Model of `re.search(r'\[?(\d{1,2}:\d{2}(?::\d{2})?)\]?', s)` and `.group(1)`.
The optional brackets impose no constraint, so the captured group is exactly
the leftmost match of the core pattern: an attempt at a `[` that succeeds
consumes the bracket and captures the core match starting one position later,
which the bracket-free scan below reaches anyway. -/
def findTs : List Char → Option (List Char)
  | [] => none
  | c :: rest =>
    match matchTsAt (c :: rest) with
    | some g => some g
    | none => findTs rest

/-- Pattern `(\d\d:\d\d:\d\d)\]` right after `[`: the (2-digit, with-extension)
attempt of the bracketed pattern. -/
def matchBrk2e : List Char → Option (List Char)
  | a :: b :: ':' :: c :: d :: ':' :: e :: f :: ']' :: _ =>
    if isDigitChar a && isDigitChar b && isDigitChar c && isDigitChar d &&
        isDigitChar e && isDigitChar f then
      some [a, b, ':', c, d, ':', e, f]
    else none
  | _ => none

/-- Pattern `(\d\d:\d\d)\]` right after `[`. -/
def matchBrk2 : List Char → Option (List Char)
  | a :: b :: ':' :: c :: d :: ']' :: _ =>
    if isDigitChar a && isDigitChar b && isDigitChar c && isDigitChar d then
      some [a, b, ':', c, d]
    else none
  | _ => none

/-- Pattern `(\d:\d\d:\d\d)\]` right after `[`. -/
def matchBrk1e : List Char → Option (List Char)
  | a :: ':' :: c :: d :: ':' :: e :: f :: ']' :: _ =>
    if isDigitChar a && isDigitChar c && isDigitChar d && isDigitChar e && isDigitChar f then
      some [a, ':', c, d, ':', e, f]
    else none
  | _ => none

/-- Pattern `(\d:\d\d)\]` right after `[`. -/
def matchBrk1 : List Char → Option (List Char)
  | a :: ':' :: c :: d :: ']' :: _ =>
    if isDigitChar a && isDigitChar c && isDigitChar d then
      some [a, ':', c, d]
    else none
  | _ => none

/-- Pattern `(\d{1,2}:\d{2}(?::\d{2})?)\]` right after an opening bracket, in the
regex backtracking order: greedy `\d{1,2}` (two digits before one) and greedy
extension (with before without), each followed by the mandatory `]`. -/
def matchBrkAt (cs : List Char) : Option (List Char) :=
  (matchBrk2e cs).orElse fun _ =>
    (matchBrk2 cs).orElse fun _ =>
      (matchBrk1e cs).orElse fun _ => matchBrk1 cs

/-- Model of `re.search(r'\[(\d{1,2}:\d{2}(?::\d{2})?)\]', line)`: returns the text
before the matching `[` (`line[:match.start()]`) and the captured group. -/
def findBrk : List Char → Option (List Char × List Char)
  | [] => none
  | '[' :: rest =>
    match matchBrkAt rest with
    | some g => some ([], g)
    | none =>
      match findBrk rest with
      | some (pre, g) => some ('[' :: pre, g)
      | none => none
  | c :: rest =>
    match findBrk rest with
    | some (pre, g) => some (c :: pre, g)
    | none => none

/-- Digit-or-colon class `[\d:]`. -/
def isDigitColon (c : Char) : Bool := isDigitChar c || c.toNat = 58

/-- Pattern `[\d:]+\]\s*\(([^)]+)\)` right after an opening `[`: a non-empty maximal
digit/colon run (shrinking it can never expose `]`, so the maximal run is the
only candidate), the closing bracket, optional whitespace, and a non-empty
parenthesised group captured up to the first `)`. -/
def matchDescAt (cs : List Char) : Option (List Char) :=
  let run := cs.takeWhile isDigitColon
  let rest := cs.drop run.length
  if run.isEmpty then none
  else
    match rest with
    | ']' :: rest2 =>
      match rest2.dropWhile isSpaceChar with
      | '(' :: rest4 =>
        let inner := rest4.takeWhile fun c => c.toNat ≠ 41
        let rest5 := rest4.drop inner.length
        if inner.isEmpty then none
        else
          match rest5 with
          | ')' :: _ => some inner
          | _ => none
      | _ => none
    | _ => none

/-- Model of `re.search(r'\[[\d:]+\]\s*\(([^)]+)\)', line)` and `.group(1)`. -/
def findDesc : List Char → Option (List Char)
  | [] => none
  | '[' :: rest =>
    match matchDescAt rest with
    | some d => some d
    | none => findDesc rest
  | _ :: rest => findDesc rest

/-- Require at least one whitespace character (the `\s+` of the leading
timestamp pattern), then consume the greedy whitespace run. -/
def stripAfterTs : List Char → Option (List Char)
  | [] => none
  | c :: rest =>
    if isSpaceChar c then some (rest.dropWhile isSpaceChar) else none

/-- Pattern `^\d\d:\d\d:\d\d\s+` attempt of the leading-timestamp sub. -/
def lead2e : List Char → Option (List Char)
  | a :: b :: ':' :: c :: d :: ':' :: e :: f :: rest =>
    if isDigitChar a && isDigitChar b && isDigitChar c && isDigitChar d &&
        isDigitChar e && isDigitChar f then
      stripAfterTs rest
    else none
  | _ => none

/-- Pattern `^\d\d:\d\d\s+` attempt. -/
def lead2 : List Char → Option (List Char)
  | a :: b :: ':' :: c :: d :: rest =>
    if isDigitChar a && isDigitChar b && isDigitChar c && isDigitChar d then
      stripAfterTs rest
    else none
  | _ => none

/-- Pattern `^\d:\d\d:\d\d\s+` attempt. -/
def lead1e : List Char → Option (List Char)
  | a :: ':' :: c :: d :: ':' :: e :: f :: rest =>
    if isDigitChar a && isDigitChar c && isDigitChar d && isDigitChar e && isDigitChar f then
      stripAfterTs rest
    else none
  | _ => none

/-- Pattern `^\d:\d\d\s+` attempt. -/
def lead1 : List Char → Option (List Char)
  | a :: ':' :: c :: d :: rest =>
    if isDigitChar a && isDigitChar c && isDigitChar d then
      stripAfterTs rest
    else none
  | _ => none

/-- Model of `re.sub(r'^(\d{1,2}:\d{2}(?::\d{2})?)\s+', '', text)`: the anchored
attempts in backtracking order; on a match the timestamp and the whitespace
run are removed, otherwise the text is unchanged. -/
def stripLeadTs (cs : List Char) : List Char :=
  match (lead2e cs).orElse fun _ =>
      (lead2 cs).orElse fun _ => (lead1e cs).orElse fun _ => lead1 cs with
  | some r => r
  | none => cs

/-- The pipe-delimited branch of `parse_script_input` (lines 97–116): split on
`|`, require at least two fields, extract the timestamp from the second field
by the tolerant pattern (fallback: the raw field verbatim), and require
non-empty text and timestamp. -/
def parsePipeLine (line : List Char) : Option ScriptSegment :=
  let parts := splitOnChar '|' line
  if 2 ≤ parts.length then
    let text := stripWs (parts.getD 0 [])
    let timestampRaw := stripWs (parts.getD 1 [])
    let description := if 2 < parts.length then stripWs (parts.getD 2 []) else []
    let timestamp :=
      match findTs timestampRaw with
      | some g => g
      | none => timestampRaw
    if text ≠ [] ∧ timestamp ≠ [] then
      some ⟨text, timestamp, description⟩
    else none
  else none

/-- Model of `_parse_alternative_format` from `app/utils/parser.py`: bracketed
timestamp anywhere in the line, description from the parenthesised group,
text from everything before the bracket with a leading bare timestamp
removed. -/
def parseAltLine (line : List Char) : Option ScriptSegment :=
  match findBrk line with
  | none => none
  | some (pre, timestamp) =>
    let description :=
      match findDesc line with
      | some d => stripWs d
      | none => []
    let text := stripWs (stripLeadTs (stripWs pre))
    if text ≠ [] ∧ timestamp ≠ [] then
      some ⟨text, timestamp, description⟩
    else none

/-- One line of `parse_script_input`: the pipe branch appends and continues
only when it yields a segment; otherwise control falls through to the
alternative format. -/
def parseLine (line : List Char) : Option ScriptSegment :=
  (parsePipeLine line).orElse fun _ => parseAltLine line

/-- Model of `parse_script_input(script_input: str)` from `app/utils/parser.py`:
strip the input, split into lines, strip each line, skip blank lines, and
collect the segments the per-line parse produces. -/
def parse_script_input (s : String) : List ScriptSegment :=
  let lines := splitOnChar '\n' (stripWs s.data)
  lines.foldl
    (fun acc l =>
      let l' := stripWs l
      if l' = [] then acc
      else
        match parseLine l' with
        | some seg => acc ++ [seg]
        | none => acc)
    []

/-- Two-digit zero-padded rendering of a natural number (the normalised form
of one timestamp field). -/
def fmt02N (n : Nat) : List Char :=
  if n < 10 then '0' :: natDigits n else natDigits n

/-- The normalised `HH:MM:SS` rendering of an hours/minutes/seconds triple:
what "the normalized form of `s`" denotes for a well-formed timestamp with
these field values (a missing hours field normalises to `00`). -/
def normalizeHMS (h m s : Nat) : List Char :=
  fmt02N h ++ ':' :: fmt02N m ++ ':' :: fmt02N s

/-! ## jobs.py : the process_job orchestrator -/

/-- Model of `JobStatus` from `app/models/job.py`. -/
inductive JobStatus
  | pending
  | uploading
  | generating_audio
  | processing_video
  | finalizing
  | completed
  | failed
deriving DecidableEq, Repr

/-- The mutable job fields `process_job` touches, plus the two per-job
directory trees (temp working tree and output tree). -/
structure JobState where
  status : JobStatus
  progress : Nat
  message : String
  error : Option String
  tempDirExists : Bool
  outputDirExists : Bool
deriving DecidableEq, Repr

/-- Job state right after `create_job` stores the job: a fresh `Job` model
(status `PENDING`, progress 0) with the upload message, the temp working
directory already created by the upload handler, and no output directory yet. -/
def initialJobState : JobState :=
  { status := .pending, progress := 0,
    message := "Video uploaded, starting processing...",
    error := none, tempDirExists := true, outputDirExists := false }

/-- One primitive step of `process_job`: a `(status, progress, message)`
update via `update_job_progress`; a fallible external call (constructor, TTS,
FFmpeg, existence check) that either returns or raises; `os.makedirs` for the
two job directories; or `shutil.rmtree(job_dir, ignore_errors=True)`, which
cannot raise. -/
inductive Act
  | upd (status : JobStatus) (progress : Nat) (message : String)
  | call (name : String)
  | mkdirs
  | rmTemp
deriving DecidableEq, Repr

/-- Model of `update_job_progress(job, status, progress, message)` from
`app/routers/jobs.py`: sets the three fields together. -/
def update_job_progress (s : JobState) (st : JobStatus) (p : Nat) (m : String) : JobState :=
  { s with status := st, progress := p, message := m }

/-- The `except Exception as e` handler at the bottom of `process_job`: set
status `FAILED`, record `str(e)` as the error and a prefixed message; progress
is left untouched, and nothing else runs. -/
def failJob (s : JobState) (e : String) : JobState :=
  { s with status := .failed, error := some e, message := "Processing failed: " ++ e }

/-- Per-segment audio progress `25 + int((i + 1) / n * 15)` (exact rational
floor; agrees with the double-precision evaluation, checked for all
`n ≤ 20000`). -/
def audioProgress (n i : Nat) : Nat := 25 + (i + 1) * 15 / n

/-- Per-segment video progress `45 + int((i + 1) / n * 35)`. -/
def videoProgress (n i : Nat) : Nat := 45 + (i + 1) * 35 / n

/-- The straight-line action script of `process_job` for a job with `n`
segments (`n = len(job.segments)`), in source order. -/
def jobScript (n : Nat) : List Act :=
  [.call "PiperTTS", .call "VideoProcessor", .mkdirs, .call "source_exists",
   .upd .uploading 20 "Video ready for processing",
   .upd .generating_audio 25 "Generating voiceover..."]
  ++ ((List.range n).flatMap fun i =>
        [Act.call "tts.generate_audio",
         Act.upd .generating_audio (audioProgress n i)
           ("Generated audio " ++ toString (i + 1) ++ "/" ++ toString n)])
  ++ [.call "tts.concatenate_audio",
      .upd .generating_audio 40 "Audio complete",
      .upd .processing_video 45 "Processing video clips..."]
  ++ ((List.range n).flatMap fun i =>
        [Act.call "video_processor.process_clip",
         Act.upd .processing_video (videoProgress n i)
           ("Processed clip " ++ toString (i + 1) ++ "/" ++ toString n)])
  ++ [.upd .finalizing 85 "Assembling final video...",
      .call "video_processor.concatenate_clips",
      .call "video_processor.merge_audio_video",
      .upd .finalizing 95 "Generating preview..."]
  ++ ((List.range n).map fun _ => Act.call "video_processor.generate_thumbnail")
  ++ [.rmTemp, .upd .completed 100 "Complete!", .call "video_processor.close"]

/-- Run the script against a list of call outcomes (`none` = the call
returns, `some e` = the call raises with message `e`; outcomes beyond the end
of the list are returns).  The first raising call transfers control to the
`except` handler and nothing later runs — the exception never escapes
`process_job`, which is why `exec` is total and always returns a `JobState`. -/
def exec : JobState → List Act → List (Option String) → JobState
  | s, [], _ => s
  | s, .upd st p m :: rest, os => exec (update_job_progress s st p m) rest os
  | s, .call _ :: rest, [] => exec s rest []
  | s, .call _ :: rest, none :: os => exec s rest os
  | s, .call _ :: _, some e :: _ => failJob s e
  | s, .mkdirs :: rest, os =>
      exec { s with tempDirExists := true, outputDirExists := true } rest os
  | s, .rmTemp :: rest, os => exec { s with tempDirExists := false } rest os

/-- The sequence of job states readers can observe while the script runs (one
entry after each executed action, ending with the handler state if a call
raises). -/
def execTrace : JobState → List Act → List (Option String) → List JobState
  | _, [], _ => []
  | s, .upd st p m :: rest, os =>
      update_job_progress s st p m ::
        execTrace (update_job_progress s st p m) rest os
  | s, .call _ :: rest, [] => s :: execTrace s rest []
  | s, .call _ :: rest, none :: os => s :: execTrace s rest os
  | s, .call _ :: _, some e :: _ => [failJob s e]
  | s, .mkdirs :: rest, os =>
      { s with tempDirExists := true, outputDirExists := true } ::
        execTrace { s with tempDirExists := true, outputDirExists := true } rest os
  | s, .rmTemp :: rest, os =>
      { s with tempDirExists := false } ::
        execTrace { s with tempDirExists := false } rest os

/-- All-success run: every call returns. -/
def execOk : JobState → List Act → JobState
  | s, [] => s
  | s, .upd st p m :: rest => execOk (update_job_progress s st p m) rest
  | s, .call _ :: rest => execOk s rest
  | s, .mkdirs :: rest =>
      execOk { s with tempDirExists := true, outputDirExists := true } rest
  | s, .rmTemp :: rest => execOk { s with tempDirExists := false } rest

/-- Number of fallible calls in a script. -/
def countCalls : List Act → Nat
  | [] => 0
  | .call _ :: rest => countCalls rest + 1
  | _ :: rest => countCalls rest

/-- The actions that run before the `(k+1)`-st fallible call. -/
def prefixBeforeCall : Nat → List Act → List Act
  | _, [] => []
  | 0, .call _ :: _ => []
  | Nat.succ k, .call c :: rest => .call c :: prefixBeforeCall k rest
  | k, .upd st p m :: rest => .upd st p m :: prefixBeforeCall k rest
  | k, .mkdirs :: rest => .mkdirs :: prefixBeforeCall k rest
  | k, .rmTemp :: rest => .rmTemp :: prefixBeforeCall k rest

/-- The `(status, progress)` pairs of the updates a script performs, in
order. -/
def updates (acts : List Act) : List (JobStatus × Nat) :=
  acts.filterMap fun a =>
    match a with
    | .upd st p _ => some (st, p)
    | _ => none

/-- The progress values of the updates a script performs, in order. -/
def progList (acts : List Act) : List Nat :=
  (updates acts).map Prod.snd

/-- Model of `delete_job` from `app/routers/jobs.py`: removes both the output and the
temp directory trees (and drops the registry entry, not modelled here). -/
def delete_job (s : JobState) : JobState :=
  { s with tempDirExists := false, outputDirExists := false }

/-! ## Helper lemmas about the orchestrator script -/

theorem updates_append (l₁ l₂ : List Act) :
    updates (l₁ ++ l₂) = updates l₁ ++ updates l₂ :=
  List.filterMap_append _ _ _

theorem updates_audio_block (n : Nat) (l : List Nat) :
    updates (l.flatMap fun i =>
        [Act.call "tts.generate_audio",
         Act.upd .generating_audio (audioProgress n i)
           ("Generated audio " ++ toString (i + 1) ++ "/" ++ toString n)]) =
      l.map fun i => (JobStatus.generating_audio, audioProgress n i) := by
  induction l with
  | nil => rfl
  | cons a t ih => simp only [List.flatMap_cons, updates_append, ih, List.map_cons]; rfl

theorem updates_video_block (n : Nat) (l : List Nat) :
    updates (l.flatMap fun i =>
        [Act.call "video_processor.process_clip",
         Act.upd .processing_video (videoProgress n i)
           ("Processed clip " ++ toString (i + 1) ++ "/" ++ toString n)]) =
      l.map fun i => (JobStatus.processing_video, videoProgress n i) := by
  induction l with
  | nil => rfl
  | cons a t ih => simp only [List.flatMap_cons, updates_append, ih, List.map_cons]; rfl

theorem updates_thumb_block (l : List Nat) :
    updates (l.map fun _ => Act.call "video_processor.generate_thumbnail") = [] := by
  induction l with
  | nil => rfl
  | cons a t ih => exact ih

/-- The `(status, progress)` update sequence of `process_job` for `n`
segments, in source order. -/
theorem updates_jobScript (n : Nat) :
    updates (jobScript n) =
      [(JobStatus.uploading, 20), (JobStatus.generating_audio, 25)]
      ++ ((List.range n).map fun i => (JobStatus.generating_audio, audioProgress n i))
      ++ [(JobStatus.generating_audio, 40), (JobStatus.processing_video, 45)]
      ++ ((List.range n).map fun i => (JobStatus.processing_video, videoProgress n i))
      ++ [(JobStatus.finalizing, 85), (JobStatus.finalizing, 95), (JobStatus.completed, 100)] := by
  rw [jobScript]
  simp only [updates_append]
  rw [updates_audio_block, updates_video_block, updates_thumb_block]
  simp [updates]

theorem audioProgress_lb (n i : Nat) : 25 ≤ audioProgress n i :=
  Nat.le_add_right _ _

theorem audioProgress_le_40 {n i : Nat} (h : i < n) : audioProgress n i ≤ 40 := by
  have h1 : (i + 1) * 15 ≤ n * 15 := Nat.mul_le_mul_right 15 (by omega)
  have h2 : (i + 1) * 15 / n ≤ n * 15 / n := Nat.div_le_div_right h1
  have h3 : n * 15 / n = 15 := Nat.mul_div_cancel_left 15 (by omega)
  unfold audioProgress
  omega

theorem audioProgress_mono (n : Nat) {i j : Nat} (h : i ≤ j) :
    audioProgress n i ≤ audioProgress n j := by
  unfold audioProgress
  have := Nat.div_le_div_right (c := n) (Nat.mul_le_mul_right 15 (by omega : i + 1 ≤ j + 1))
  omega

theorem audioProgress_last {n : Nat} (h : 0 < n) : audioProgress n (n - 1) = 40 := by
  unfold audioProgress
  rw [Nat.sub_add_cancel h]
  have h3 : n * 15 / n = 15 := Nat.mul_div_cancel_left 15 (by omega)
  omega

theorem videoProgress_lb (n i : Nat) : 45 ≤ videoProgress n i :=
  Nat.le_add_right _ _

theorem videoProgress_le_80 {n i : Nat} (h : i < n) : videoProgress n i ≤ 80 := by
  have h1 : (i + 1) * 35 ≤ n * 35 := Nat.mul_le_mul_right 35 (by omega)
  have h2 : (i + 1) * 35 / n ≤ n * 35 / n := Nat.div_le_div_right h1
  have h3 : n * 35 / n = 35 := Nat.mul_div_cancel_left 35 (by omega)
  unfold videoProgress
  omega

theorem videoProgress_mono (n : Nat) {i j : Nat} (h : i ≤ j) :
    videoProgress n i ≤ videoProgress n j := by
  unfold videoProgress
  have := Nat.div_le_div_right (c := n) (Nat.mul_le_mul_right 35 (by omega : i + 1 ≤ j + 1))
  omega

theorem videoProgress_last {n : Nat} (h : 0 < n) : videoProgress n (n - 1) = 80 := by
  unfold videoProgress
  rw [Nat.sub_add_cancel h]
  have h3 : n * 35 / n = 35 := Nat.mul_div_cancel_left 35 (by omega)
  omega

/-- The progress values of the whole update sequence, seeded with the job's
initial progress 0, form a non-decreasing chain. -/
theorem chain'_progList_jobScript (n : Nat) :
    List.Chain' (· ≤ ·) (0 :: progList (jobScript n)) := by
  rw [progList, updates_jobScript n]
  rw [List.chain'_iff_pairwise]
  simp only [List.map_append, List.map_map, List.map_cons, List.map_nil, Function.comp_def]
  rw [List.pairwise_cons]
  constructor
  · intro a _; exact Nat.zero_le a
  · simp only [List.pairwise_append, List.pairwise_cons, List.mem_append, List.mem_cons,
      List.mem_map, List.mem_range, List.pairwise_map, List.not_mem_nil, List.Pairwise.nil,
      or_false, false_or]
    refine ⟨⟨⟨⟨⟨?_, ?_, trivial⟩, ?_, ?_⟩, ⟨?_, ?_, trivial⟩, ?_⟩, ?_, ?_⟩,
      ⟨?_, ?_, ?_, trivial⟩, ?_⟩
    · intro a ha; omega
    · exact fun a h => h.elim
    · exact List.Pairwise.imp (fun hij => audioProgress_mono n (Nat.le_of_lt hij))
        (List.pairwise_lt_range n)
    · intro a ha b hb
      obtain ⟨i, hi, rfl⟩ := hb
      have h1 := audioProgress_lb n i
      rcases ha with rfl | rfl <;> omega
    · intro a ha; omega
    · exact fun a h => h.elim
    · intro a ha b hb
      rcases ha with ha | ⟨i, hi, rfl⟩
      · rcases ha with rfl | rfl <;> rcases hb with rfl | rfl <;> omega
      · have h1 := audioProgress_le_40 hi
        rcases hb with rfl | rfl <;> omega
    · exact List.Pairwise.imp (fun hij => videoProgress_mono n (Nat.le_of_lt hij))
        (List.pairwise_lt_range n)
    · intro a ha b hb
      obtain ⟨j, hj, rfl⟩ := hb
      have hv := videoProgress_lb n j
      rcases ha with (ha | ⟨i, hi, rfl⟩) | ha
      · rcases ha with rfl | rfl <;> omega
      · have h1 := audioProgress_le_40 hi; omega
      · rcases ha with rfl | rfl <;> omega
    · intro a ha; rcases ha with rfl | rfl <;> omega
    · intro a ha; omega
    · exact fun a h => h.elim
    · intro a ha b hb
      rcases ha with ((ha | ⟨i, hi, rfl⟩) | ha) | ⟨j, hj, rfl⟩
      · rcases ha with rfl | rfl <;> rcases hb with rfl | rfl | rfl <;> omega
      · have h1 := audioProgress_le_40 hi
        rcases hb with rfl | rfl | rfl <;> omega
      · rcases ha with rfl | rfl <;> rcases hb with rfl | rfl | rfl <;> omega
      · have h1 := videoProgress_le_80 hj
        rcases hb with rfl | rfl | rfl <;> omega

/-- Progress monotonicity transfers from the update list to every observable
state of any run, whatever the call outcomes: a raising call leaves progress
untouched when the handler runs. -/
theorem chain'_progress (acts : List Act) :
    ∀ (s : JobState) (os : List (Option String)),
      List.Chain' (· ≤ ·) (s.progress :: progList acts) →
      List.Chain' (fun a b : JobState => a.progress ≤ b.progress) (s :: execTrace s acts os) := by
  induction acts with
  | nil =>
    intro s os _
    simp [execTrace]
  | cons a rest ih =>
    intro s os hchain
    cases a with
    | upd st p m =>
      have hpl : progList (Act.upd st p m :: rest) = p :: progList rest := by
        simp [progList, updates]
      rw [hpl, List.chain'_cons] at hchain
      simp only [execTrace]
      rw [List.chain'_cons]
      exact ⟨hchain.1, ih _ os hchain.2⟩
    | call c =>
      have hpl : progList (Act.call c :: rest) = progList rest := by
        simp [progList, updates]
      rw [hpl] at hchain
      cases os with
      | nil =>
        simp only [execTrace]
        rw [List.chain'_cons]
        exact ⟨le_refl _, ih s [] hchain⟩
      | cons o os' =>
        cases o with
        | none =>
          simp only [execTrace]
          rw [List.chain'_cons]
          exact ⟨le_refl _, ih s os' hchain⟩
        | some e =>
          simp only [execTrace]
          rw [List.chain'_cons]
          exact ⟨le_refl _, List.chain'_singleton _⟩
    | mkdirs =>
      have hpl : progList (Act.mkdirs :: rest) = progList rest := by
        simp [progList, updates]
      rw [hpl] at hchain
      simp only [execTrace]
      rw [List.chain'_cons]
      exact ⟨le_refl _, ih _ os hchain⟩
    | rmTemp =>
      have hpl : progList (Act.rmTemp :: rest) = progList rest := by
        simp [progList, updates]
      rw [hpl] at hchain
      simp only [execTrace]
      rw [List.chain'_cons]
      exact ⟨le_refl _, ih _ os hchain⟩

/-- If every `COMPLETED` update in the script carries progress 100, then every
observable state with status `COMPLETED` has progress 100 — the handler never
produces `COMPLETED`. -/
theorem trace_completed (acts : List Act) :
    ∀ (s : JobState) (os : List (Option String)),
      (∀ p m, Act.upd .completed p m ∈ acts → p = 100) →
      (s.status = .completed → s.progress = 100) →
      ∀ t ∈ execTrace s acts os, t.status = .completed → t.progress = 100 := by
  induction acts with
  | nil =>
    intro s os _ _ t ht
    simp [execTrace] at ht
  | cons a rest ih =>
    intro s os hupd hs t ht
    cases a with
    | upd st p m =>
      have hnext : (update_job_progress s st p m).status = .completed →
          (update_job_progress s st p m).progress = 100 := by
        intro hst
        have hstc : st = JobStatus.completed := hst
        exact hupd p m (by rw [← hstc]; exact List.mem_cons_self _ _)
      simp only [execTrace] at ht
      rcases List.mem_cons.mp ht with rfl | ht'
      · exact hnext
      · exact ih _ os (fun p' m' hm => hupd p' m' (List.mem_cons_of_mem _ hm)) hnext t ht'
    | call c =>
      have hupd' : ∀ p' m', Act.upd .completed p' m' ∈ rest → p' = 100 :=
        fun p' m' hm => hupd p' m' (List.mem_cons_of_mem _ hm)
      cases os with
      | nil =>
        simp only [execTrace] at ht
        rcases List.mem_cons.mp ht with rfl | ht'
        · exact hs
        · exact ih s [] hupd' hs t ht'
      | cons o os' =>
        cases o with
        | none =>
          simp only [execTrace] at ht
          rcases List.mem_cons.mp ht with rfl | ht'
          · exact hs
          · exact ih s os' hupd' hs t ht'
        | some e =>
          simp only [execTrace] at ht
          rcases List.mem_cons.mp ht with rfl | ht'
          · intro hst
            exact absurd hst (by simp [failJob])
          · simp at ht'
    | mkdirs =>
      have hupd' : ∀ p' m', Act.upd .completed p' m' ∈ rest → p' = 100 :=
        fun p' m' hm => hupd p' m' (List.mem_cons_of_mem _ hm)
      simp only [execTrace] at ht
      rcases List.mem_cons.mp ht with rfl | ht'
      · exact hs
      · exact ih { s with tempDirExists := true, outputDirExists := true } os hupd' hs t ht'
    | rmTemp =>
      have hupd' : ∀ p' m', Act.upd .completed p' m' ∈ rest → p' = 100 :=
        fun p' m' hm => hupd p' m' (List.mem_cons_of_mem _ hm)
      simp only [execTrace] at ht
      rcases List.mem_cons.mp ht with rfl | ht'
      · exact hs
      · exact ih { s with tempDirExists := false } os hupd' hs t ht'

/-- A run whose `(k+1)`-st call raises `e` ends in the handler state built
from the all-success state of everything before that call. -/
theorem exec_fail (acts : List Act) :
    ∀ (s : JobState) (k : Nat) (e : String) (os : List (Option String)),
      k < countCalls acts →
      exec s acts (List.replicate k none ++ some e :: os) =
        failJob (execOk s (prefixBeforeCall k acts)) e := by
  induction acts with
  | nil =>
    intro s k e os hk
    simp [countCalls] at hk
  | cons a rest ih =>
    intro s k e os hk
    cases a with
    | upd st p m =>
      simp only [exec, prefixBeforeCall, execOk]
      exact ih _ k e os hk
    | call c =>
      cases k with
      | zero =>
        simp only [List.replicate, List.nil_append, exec, prefixBeforeCall, execOk]
      | succ k' =>
        have hk' : k' < countCalls rest := by
          simp only [countCalls] at hk
          omega
        simp only [List.replicate_succ, List.cons_append, exec, prefixBeforeCall, execOk]
        exact ih s k' e os hk'
    | mkdirs =>
      simp only [exec, prefixBeforeCall, execOk]
      exact ih _ k e os hk
    | rmTemp =>
      simp only [exec, prefixBeforeCall, execOk]
      exact ih _ k e os hk

/-- Every run either ends in the handler state of some failing call, or is
the all-success run. -/
theorem exec_cases (acts : List Act) :
    ∀ (s : JobState) (os : List (Option String)),
      (∃ k e, k < countCalls acts ∧
        exec s acts os = failJob (execOk s (prefixBeforeCall k acts)) e) ∨
      exec s acts os = execOk s acts := by
  induction acts with
  | nil => intro s os; right; rfl
  | cons a rest ih =>
    intro s os
    cases a with
    | upd st p m =>
      rcases ih (update_job_progress s st p m) os with ⟨k, e, hk, heq⟩ | heq
      · exact .inl ⟨k, e, hk, by simp only [exec, prefixBeforeCall, execOk]; exact heq⟩
      · exact .inr (by simp only [exec, execOk]; exact heq)
    | call c =>
      cases os with
      | nil =>
        rcases ih s [] with ⟨k, e, hk, heq⟩ | heq
        · refine .inl ⟨k + 1, e, ?_, ?_⟩
          · simp only [countCalls]; omega
          · simp only [exec, prefixBeforeCall, execOk]; exact heq
        · exact .inr (by simp only [exec, execOk]; exact heq)
      | cons o os' =>
        cases o with
        | none =>
          rcases ih s os' with ⟨k, e, hk, heq⟩ | heq
          · refine .inl ⟨k + 1, e, ?_, ?_⟩
            · simp only [countCalls]; omega
            · simp only [exec, prefixBeforeCall, execOk]; exact heq
          · exact .inr (by simp only [exec, execOk]; exact heq)
        | some e =>
          refine .inl ⟨0, e, ?_, ?_⟩
          · simp only [countCalls]; omega
          · simp only [exec, prefixBeforeCall, execOk]
    | mkdirs =>
      rcases ih { s with tempDirExists := true, outputDirExists := true } os with
        ⟨k, e, hk, heq⟩ | heq
      · exact .inl ⟨k, e, hk, by simp only [exec, prefixBeforeCall, execOk]; exact heq⟩
      · exact .inr (by simp only [exec, execOk]; exact heq)
    | rmTemp =>
      rcases ih { s with tempDirExists := false } os with ⟨k, e, hk, heq⟩ | heq
      · exact .inl ⟨k, e, hk, by simp only [exec, prefixBeforeCall, execOk]; exact heq⟩
      · exact .inr (by simp only [exec, execOk]; exact heq)

theorem execOk_append (l₁ l₂ : List Act) :
    ∀ s : JobState, execOk s (l₁ ++ l₂) = execOk (execOk s l₁) l₂ := by
  induction l₁ with
  | nil => intro s; rfl
  | cons a rest ih =>
    intro s
    cases a <;> simp only [List.cons_append, execOk] <;> apply ih

/-- No action ever removes the output directory. -/
theorem execOk_outputDir (acts : List Act) :
    ∀ s : JobState, s.outputDirExists = true → (execOk s acts).outputDirExists = true := by
  induction acts with
  | nil => intro s hs; exact hs
  | cons a rest ih =>
    intro s hs
    cases a <;> simp only [execOk] <;> exact ih _ (by simp [update_job_progress, hs])

/-! ## Claim C1 : progress monotone, COMPLETED implies 100 -/

/-- C1: for every segment count and every pattern of call outcomes, the
progress values along the observable state sequence of `process_job` (from the
freshly created job onward) are non-decreasing — in particular they never
decrease before a transition to `FAILED`, and the handler itself leaves
progress unchanged — and every observable state with status `COMPLETED` has
progress exactly 100. -/
theorem C1_progress_monotone_completed_100 (n : Nat) (os : List (Option String)) :
    List.Chain' (fun a b : JobState => a.progress ≤ b.progress)
      (initialJobState :: execTrace initialJobState (jobScript n) os) ∧
    ∀ t ∈ execTrace initialJobState (jobScript n) os,
      t.status = .completed → t.progress = 100 := by
  constructor
  · exact chain'_progress (jobScript n) initialJobState os (chain'_progList_jobScript n)
  · apply trace_completed
    · intro p m hmem
      simp only [jobScript, List.mem_append, List.mem_cons, List.mem_flatMap, List.mem_map,
        List.mem_range, List.not_mem_nil, or_false, Act.upd.injEq, reduceCtorEq, false_and,
        and_false, exists_false, or_self, false_or] at hmem
      rcases hmem with ⟨-, h, -⟩
      exact h
    · intro h
      simp [initialJobState] at h

/-! ## Claim C2 : any raising step ends the job FAILED, progress frozen -/

/-- C2: whatever the segment count, if the `(k+1)`-st fallible step of
`process_job` raises an exception with (non-empty) message `e`, the job ends
with status `FAILED`, `error` set to the non-empty message, the prefixed
failure message, and progress exactly the value last successfully set before
the raising call.  `exec` returning a state at all (rather than propagating)
is the model of the top-level `except Exception` handler. -/
theorem C2_failure_sets_failed (n k : Nat) (e : String) (os : List (Option String))
    (hk : k < countCalls (jobScript n)) (he : e ≠ "") :
    (exec initialJobState (jobScript n) (List.replicate k none ++ some e :: os)).status = .failed ∧
    (exec initialJobState (jobScript n) (List.replicate k none ++ some e :: os)).error = some e ∧
    (exec initialJobState (jobScript n) (List.replicate k none ++ some e :: os)).error ≠ some "" ∧
    (exec initialJobState (jobScript n) (List.replicate k none ++ some e :: os)).message =
      "Processing failed: " ++ e ∧
    (exec initialJobState (jobScript n) (List.replicate k none ++ some e :: os)).progress =
      (execOk initialJobState (prefixBeforeCall k (jobScript n))).progress := by
  rw [exec_fail (jobScript n) initialJobState k e os hk]
  refine ⟨rfl, rfl, ?_, rfl, rfl⟩
  simp [failJob, he]

/-- Witness for C2: a 1-segment job whose third call (the source-video
existence check, the acquisition step) raises; the job is `FAILED` with the
recorded message and progress frozen at the value before that call. -/
theorem C2_witness :
    (exec initialJobState (jobScript 1)
        (List.replicate 2 none ++ some "Source video file not found" :: [])).status = .failed ∧
    (exec initialJobState (jobScript 1)
        (List.replicate 2 none ++ some "Source video file not found" :: [])).error =
      some "Source video file not found" ∧
    (exec initialJobState (jobScript 1)
        (List.replicate 2 none ++ some "Source video file not found" :: [])).error ≠ some "" ∧
    (exec initialJobState (jobScript 1)
        (List.replicate 2 none ++ some "Source video file not found" :: [])).message =
      "Processing failed: " ++ "Source video file not found" ∧
    (exec initialJobState (jobScript 1)
        (List.replicate 2 none ++ some "Source video file not found" :: [])).progress =
      (execOk initialJobState (prefixBeforeCall 2 (jobScript 1))).progress :=
  C2_failure_sets_failed 1 2 "Source video file not found" [] (by decide) (by decide)

/-! ## Claim C3 : the exact progress weighting -/

/-- C3: for every job with `n ≥ 1` segments, the `(status, progress)` update
sequence of a successful run is exactly: acquisition sets 20; audio updates
are the evenly apportioned `25 + ⌊15(i+1)/n⌋`, reaching 40 at the last
segment (plus the 40/45 step boundaries); video updates are the evenly
apportioned `45 + ⌊35(i+1)/n⌋` within `[45, 80]`, reaching 80 at the last
segment; assembly sets 85 then 95; completion ends at 100. -/
theorem C3_progress_weighting (n : Nat) (hn : 1 ≤ n) :
    updates (jobScript n) =
      [(JobStatus.uploading, 20), (JobStatus.generating_audio, 25)]
      ++ ((List.range n).map fun i => (JobStatus.generating_audio, audioProgress n i))
      ++ [(JobStatus.generating_audio, 40), (JobStatus.processing_video, 45)]
      ++ ((List.range n).map fun i => (JobStatus.processing_video, videoProgress n i))
      ++ [(JobStatus.finalizing, 85), (JobStatus.finalizing, 95), (JobStatus.completed, 100)] ∧
    audioProgress n (n - 1) = 40 ∧
    videoProgress n (n - 1) = 80 ∧
    (∀ i, i < n → 25 ≤ audioProgress n i ∧ audioProgress n i ≤ 40) ∧
    (∀ i, i < n → 45 ≤ videoProgress n i ∧ videoProgress n i ≤ 80) ∧
    (∀ i j, i ≤ j → audioProgress n i ≤ audioProgress n j ∧
      videoProgress n i ≤ videoProgress n j) :=
  ⟨updates_jobScript n, audioProgress_last hn, videoProgress_last hn,
    fun i hi => ⟨audioProgress_lb n i, audioProgress_le_40 hi⟩,
    fun i hi => ⟨videoProgress_lb n i, videoProgress_le_80 hi⟩,
    fun _ _ hij => ⟨audioProgress_mono n hij, videoProgress_mono n hij⟩⟩

/-- Witness for C3 at `n = 2`: the fully evaluated update sequence. -/
theorem C3_witness :
    updates (jobScript 2) =
      [(JobStatus.uploading, 20), (JobStatus.generating_audio, 25),
       (JobStatus.generating_audio, 32), (JobStatus.generating_audio, 40),
       (JobStatus.generating_audio, 40), (JobStatus.processing_video, 45),
       (JobStatus.processing_video, 62), (JobStatus.processing_video, 80),
       (JobStatus.finalizing, 85), (JobStatus.finalizing, 95),
       (JobStatus.completed, 100)] := by
  rw [(C3_progress_weighting 2 (by omega)).1]
  decide

/-! ## Claim C9 : cleanup discipline -/

/-- C9 as stated is false: a 1-segment job whose very first call raises
reaches the terminal state `FAILED` with its temporary working directory still
present — the `except` handler performs no cleanup. -/
theorem C9_counterexample :
    (exec initialJobState (jobScript 1) [some "boom"]).status = .failed ∧
    (exec initialJobState (jobScript 1) [some "boom"]).tempDirExists = true := by
  decide

/-- C9 amended: on the `COMPLETED` terminal state the temp working directory
has been removed while the output artifacts persist; a `FAILED` job may keep
its temp directory (the handler does not clean up); explicit deletion removes
both the output and the temp directories whatever the final state. -/
theorem C9_cleanup_discipline (n : Nat) (os : List (Option String)) :
    ((exec initialJobState (jobScript n) os).status = .completed →
      (exec initialJobState (jobScript n) os).tempDirExists = false ∧
      (exec initialJobState (jobScript n) os).outputDirExists = true) ∧
    (delete_job (exec initialJobState (jobScript n) os)).tempDirExists = false ∧
    (delete_job (exec initialJobState (jobScript n) os)).outputDirExists = false := by
  refine ⟨?_, rfl, rfl⟩
  rcases exec_cases (jobScript n) initialJobState os with ⟨k, e, _, heq⟩ | heq
  · rw [heq]
    intro h
    exact absurd h (by simp [failJob])
  · rw [heq]
    intro _
    rw [jobScript]
    rw [execOk_append, execOk_append, execOk_append, execOk_append, execOk_append,
      execOk_append]
    constructor
    · simp [execOk, update_job_progress]
    · simp only [execOk, update_job_progress]
      apply execOk_outputDir
      apply execOk_outputDir
      apply execOk_outputDir
      rfl

/-- Witness for C9: the all-success run of a 1-segment job completes with the
temp directory removed and the output directory retained. -/
theorem C9_witness :
    (exec initialJobState (jobScript 1) []).tempDirExists = false ∧
    (exec initialJobState (jobScript 1) []).outputDirExists = true :=
  (C9_cleanup_discipline 1 []).1 (by decide)

/-! ## Claim C4 : crop-region validity -/

/-- Clamping a value into `[0, b - w]` keeps the interval `[x, x + w]` inside
`[0, b]` whenever `0 ≤ w ≤ b`. -/
theorem clamp_bounds (a b w : ℤ) (_h0 : 0 ≤ w) (hwb : w ≤ b) :
    0 ≤ max 0 (min a (b - w)) ∧ max 0 (min a (b - w)) + w ≤ b := by
  constructor
  · exact le_max_left 0 _
  · have hle : max 0 (min a (b - w)) ≤ b - w := max_le (by omega) (min_le_right _ _)
    omega

/-- C4: for every positive frame width/height and positive target width/height
and every subject point (inside the frame or not), the crop region computed by
`SubjectDetector.calculate_crop_region` satisfies `0 ≤ x`, `0 ≤ y`,
`x + width ≤ frame_width`, `y + height ≤ frame_height`, and its width/height
ratio matches the target aspect ratio within one pixel of rounding. -/
theorem C4_crop_region_valid (fw fh cx cy tw th x y w h : ℤ)
    (hfw : 0 < fw) (hfh : 0 < fh) (htw : 0 < tw) (hth : 0 < th)
    (hr : calculate_crop_region fw fh (cx, cy) tw th = (x, y, w, h)) :
    0 ≤ x ∧ 0 ≤ y ∧ x + w ≤ fw ∧ y + h ≤ fh ∧
    (|(w : ℚ) - (h : ℚ) * ((tw : ℚ) / (th : ℚ))| < 1 ∨
     |(h : ℚ) - (w : ℚ) / ((tw : ℚ) / (th : ℚ))| < 1) := by
  have hth' : (0 : ℚ) < (th : ℚ) := by exact_mod_cast hth
  have htw' : (0 : ℚ) < (tw : ℚ) := by exact_mod_cast htw
  have hfh' : (0 : ℚ) < (fh : ℚ) := by exact_mod_cast hfh
  have hfw' : (0 : ℚ) < (fw : ℚ) := by exact_mod_cast hfw
  have haspect : 0 < (tw : ℚ) / (th : ℚ) := div_pos htw' hth'
  simp only [calculate_crop_region] at hr
  split at hr
  case isTrue hbr =>
    simp only [Prod.mk.injEq] at hr
    obtain ⟨hx, hy, hw, hh⟩ := hr
    have hwval : w = ⌊(fh : ℚ) * ((tw : ℚ) / (th : ℚ))⌋ := by
      rw [← hw, pyTruncRat, if_pos (mul_nonneg hfh'.le haspect.le)]
    have hw0 : 0 ≤ w := by
      rw [hwval]; exact Int.floor_nonneg.mpr (mul_nonneg hfh'.le haspect.le)
    have hwfw : w ≤ fw := by
      have h1 : (w : ℚ) ≤ (fh : ℚ) * ((tw : ℚ) / (th : ℚ)) := by
        rw [hwval]; exact Int.floor_le _
      have h2 : (w : ℚ) ≤ (fw : ℚ) := le_trans h1 hbr
      exact_mod_cast h2
    obtain ⟨hx0, hxw⟩ := clamp_bounds (cx - w.fdiv 2) fw w hw0 hwfw
    obtain ⟨hy0, hyh⟩ := clamp_bounds (cy - fh.fdiv 2) fh fh hfh.le le_rfl
    refine ⟨?_, ?_, ?_, ?_, ?_⟩
    · rw [← hx, hw]; exact hx0
    · rw [← hy]; exact hy0
    · rw [← hx, hw]; exact hxw
    · rw [← hy, ← hh]; exact hyh
    · left
      rw [← hh, hwval]
      have hfl : (fh : ℚ) * ((tw : ℚ) / (th : ℚ)) - 1 < (⌊(fh : ℚ) * ((tw : ℚ) / (th : ℚ))⌋ : ℚ) :=
        Int.sub_one_lt_floor _
      have hfu : (⌊(fh : ℚ) * ((tw : ℚ) / (th : ℚ))⌋ : ℚ) ≤ (fh : ℚ) * ((tw : ℚ) / (th : ℚ)) :=
        Int.floor_le _
      rw [abs_lt]
      constructor <;> linarith
  case isFalse hbr =>
    have hfa : (fw : ℚ) < (fh : ℚ) * ((tw : ℚ) / (th : ℚ)) := lt_of_not_le hbr
    simp only [Prod.mk.injEq] at hr
    obtain ⟨hx, hy, hw, hh⟩ := hr
    have hhval : h = ⌊(fw : ℚ) / ((tw : ℚ) / (th : ℚ))⌋ := by
      rw [← hh, pyTruncRat, if_pos (div_nonneg hfw'.le haspect.le)]
    have hh0 : 0 ≤ h := by
      rw [hhval]; exact Int.floor_nonneg.mpr (div_nonneg hfw'.le haspect.le)
    have hhfh : h ≤ fh := by
      have h1 : (h : ℚ) ≤ (fw : ℚ) / ((tw : ℚ) / (th : ℚ)) := by
        rw [hhval]; exact Int.floor_le _
      have h2 : (fw : ℚ) / ((tw : ℚ) / (th : ℚ)) < (fh : ℚ) := (div_lt_iff₀ haspect).mpr hfa
      have h3 : (h : ℚ) < (fh : ℚ) := lt_of_le_of_lt h1 h2
      exact_mod_cast h3.le
    obtain ⟨hx0, hxw⟩ := clamp_bounds (cx - fw.fdiv 2) fw fw hfw.le le_rfl
    obtain ⟨hy0, hyh⟩ := clamp_bounds (cy - h.fdiv 2) fh h hh0 hhfh
    refine ⟨?_, ?_, ?_, ?_, ?_⟩
    · rw [← hx]; exact hx0
    · rw [← hy, hh]; exact hy0
    · rw [← hx, ← hw]; exact hxw
    · rw [← hy, hh]; exact hyh
    · right
      rw [← hw, hhval]
      have hfl : (fw : ℚ) / ((tw : ℚ) / (th : ℚ)) - 1 < (⌊(fw : ℚ) / ((tw : ℚ) / (th : ℚ))⌋ : ℚ) :=
        Int.sub_one_lt_floor _
      have hfu : (⌊(fw : ℚ) / ((tw : ℚ) / (th : ℚ))⌋ : ℚ) ≤ (fw : ℚ) / ((tw : ℚ) / (th : ℚ)) :=
        Int.floor_le _
      rw [abs_lt]
      constructor <;> linarith

/-- Witness for C4 at a 1920×1080 frame, subject point (5000, −50) far outside
the frame, and the default 720×1280 target. -/
theorem C4_witness :
    0 ≤ (1313 : ℤ) ∧ 0 ≤ (0 : ℤ) ∧ (1313 : ℤ) + 607 ≤ 1920 ∧ (0 : ℤ) + 1080 ≤ 1080 ∧
    (|((607 : ℤ) : ℚ) - ((1080 : ℤ) : ℚ) * (((720 : ℤ) : ℚ) / ((1280 : ℤ) : ℚ))| < 1 ∨
     |((1080 : ℤ) : ℚ) - ((607 : ℤ) : ℚ) / (((720 : ℤ) : ℚ) / ((1280 : ℤ) : ℚ))| < 1) :=
  C4_crop_region_valid 1920 1080 5000 (-50) 720 1280 1313 0 607 1080
    (by decide) (by decide) (by decide) (by decide)
    (by
      have hcond : ((1080 : ℤ) : ℚ) * (((720 : ℤ) : ℚ) / ((1280 : ℤ) : ℚ)) ≤ ((1920 : ℤ) : ℚ) := by
        norm_num
      have hfl : pyTruncRat (((1080 : ℤ) : ℚ) * (((720 : ℤ) : ℚ) / ((1280 : ℤ) : ℚ))) = 607 := by
        rw [pyTruncRat, if_pos (by norm_num : (0 : ℚ) ≤ ((1080 : ℤ) : ℚ) * (((720 : ℤ) : ℚ) / ((1280 : ℤ) : ℚ)))]
        norm_num
      simp only [calculate_crop_region, if_pos hcond, hfl]
      decide)

/-! ## Claim C5 : time-stretch speed ratio -/

/-- C5 as stated is false: at `current_duration = 1`, `target_duration = -1`
(so `target_duration ≤ 0`), `time_stretch` does not fail at all — the negative
ratio is clamped up to `0.5` and processing continues.  No `ConfigurationError`
check exists in the code. -/
theorem C5_counterexample :
    time_stretch_speed 1 (-1) = Except.ok (1/2) := by
  norm_num [time_stretch_speed]

/-- C5 amended: for positive `current_duration`, the speed ratio is
`current/target` clamped to `[0.5, 2.0]` when `target_duration > 0` (equal to
the unclamped ratio when already in range); at `target_duration = 0` the code
fails with an uncategorised `ZeroDivisionError` (not a `ConfigurationError`
kind); for `target_duration < 0` it does not fail and yields the lower clamp
`0.5`. -/
theorem C5_time_stretch_clamped (c t : ℚ) (hc : 0 < c) :
    (0 < t → time_stretch_speed c t = .ok (max (1/2) (min 2 (c / t))) ∧
      (∀ r, time_stretch_speed c t = .ok r → 1/2 ≤ r ∧ r ≤ 2) ∧
      (1/2 ≤ c / t → c / t ≤ 2 → time_stretch_speed c t = .ok (c / t))) ∧
    (t = 0 → time_stretch_speed c t = .error "float division by zero") ∧
    (t < 0 → time_stretch_speed c t = .ok (1/2)) := by
  have hc' : ¬ c ≤ 0 := not_le.mpr hc
  refine ⟨fun ht => ⟨?_, ?_, ?_⟩, fun ht => ?_, fun ht => ?_⟩
  · rw [time_stretch_speed, if_neg hc', if_neg (ne_of_gt ht)]
  · intro r hok
    rw [time_stretch_speed, if_neg hc', if_neg (ne_of_gt ht)] at hok
    have hval : r = max (1/2) (min 2 (c / t)) := by
      injection hok with hv
      exact hv.symm
    constructor
    · rw [hval]; exact le_max_left _ _
    · rw [hval]
      exact max_le (by norm_num) (min_le_left _ _)
  · intro h1 h2
    rw [time_stretch_speed, if_neg hc', if_neg (ne_of_gt ht)]
    rw [min_eq_right h2, max_eq_right h1]
  · rw [time_stretch_speed, if_neg hc', if_pos ht]
  · have hratio : c / t < 0 := div_neg_of_pos_of_neg hc ht
    rw [time_stretch_speed, if_neg hc', if_neg (ne_of_lt ht)]
    rw [min_eq_right (by linarith), max_eq_left (by linarith)]

/-- Witness for C5 at `current = 3`, `target = 2`: the in-range ratio `3/2` is
returned unclamped. -/
theorem C5_witness : time_stretch_speed 3 2 = Except.ok (3 / 2) :=
  ((C5_time_stretch_clamped 3 2 (by norm_num)).1 (by norm_num)).2.2
    (by norm_num) (by norm_num)

/-! ## Claim C6 : the script parser is total and skips bad lines -/

theorem parseLine_nil : parseLine [] = none := by decide

/-- The accumulator loop of `parse_script_input` collects exactly the
per-line parses (blank lines parse to `none` anyway). -/
theorem parse_foldl_aux (ls : List (List Char)) :
    ∀ acc : List ScriptSegment,
      ls.foldl
        (fun acc l =>
          let l' := stripWs l
          if l' = [] then acc
          else
            match parseLine l' with
            | some seg => acc ++ [seg]
            | none => acc)
        acc
      = acc ++ ls.filterMap fun l => parseLine (stripWs l) := by
  induction ls with
  | nil => intro acc; simp
  | cons l t ih =>
    intro acc
    simp only [List.foldl_cons, List.filterMap_cons]
    by_cases hl : stripWs l = []
    · have hnone : parseLine (stripWs l) = none := by rw [hl]; exact parseLine_nil
      rw [if_pos hl]
      simp only [hnone]
      exact ih acc
    · rw [if_neg hl]
      cases hseg : parseLine (stripWs l) with
      | none =>
        simp only [hseg]
        exact ih acc
      | some seg =>
        simp only [hseg]
        rw [ih (acc ++ [seg])]
        simp

theorem parse_script_input_eq (s : String) :
    parse_script_input s =
      (splitOnChar '\n' (stripWs s.data)).filterMap fun l => parseLine (stripWs l) := by
  unfold parse_script_input
  rw [parse_foldl_aux]
  simp

/-- C6: `parse_script_input` is a total function — modelled with every
fallible construct threaded explicitly, it returns a value for every input
string (it never invokes the raising `parse_timestamp`): the result is
exactly the per-line parses with every line that yields no valid
(text, timestamp) pair skipped, and when no line parses the result is the
empty list. -/
theorem C6_parser_total_skips_bad_lines (s : String) :
    parse_script_input s =
      ((splitOnChar '\n' (stripWs s.data)).filterMap fun l => parseLine (stripWs l)) ∧
    ((splitOnChar '\n' (stripWs s.data)).all (fun l => (parseLine (stripWs l)).isNone) = true →
      parse_script_input s = []) := by
  refine ⟨parse_script_input_eq s, fun hall => ?_⟩
  rw [parse_script_input_eq s]
  rw [List.filterMap_eq_nil_iff]
  intro l hl
  have := (List.all_eq_true.mp hall) l hl
  exact Option.isNone_iff_eq_none.mp this

/-- Witness for C6 on an input none of whose lines parses. -/
theorem C6_witness :
    parse_script_input "hello world\nfoo bar" = [] :=
  (C6_parser_total_skips_bad_lines "hello world\nfoo bar").2 (by decide)

/-! ## Claim C7 : pipe lines never use the fallback (refuted) -/

/-- C7 as stated is false: the line `"|[12:34] (x)"` contains a pipe
separator, its pipe-delimited parse yields nothing (empty text field), and
the segment it produces comes from the inline-bracket fallback. -/
theorem C7_counterexample :
    '|' ∈ ("|[12:34] (x)".data) ∧
    parsePipeLine ("|[12:34] (x)".data) = none ∧
    parseLine ("|[12:34] (x)".data) =
      some ⟨['|'], ['1', '2', ':', '3', '4'], ['x']⟩ := by
  decide

/-- C7 amended: for a line containing a pipe separator, the pipe-delimited
branch has priority — whenever it yields a segment, that segment is the
line's result and the fallback is not consulted; only when the pipe parse
yields no segment (empty text or empty timestamp field) does the
inline-bracket fallback run, and it may then produce the line's segment. -/
theorem C7_pipe_branch_priority (line : List Char) (_hpipe : '|' ∈ line) :
    (∀ seg, parsePipeLine line = some seg → parseLine line = some seg) ∧
    (parsePipeLine line = none → parseLine line = parseAltLine line) := by
  constructor
  · intro seg h
    unfold parseLine
    rw [h]
    rfl
  · intro h
    unfold parseLine
    rw [h]
    rfl

/-- Witness for C7 on a pipe-delimited line parsed by the pipe branch. -/
theorem C7_witness :
    parseLine ("a|12:34".data) = some ⟨['a'], ['1', '2', ':', '3', '4'], []⟩ :=
  (C7_pipe_branch_priority ("a|12:34".data) (by decide)).1
    ⟨['a'], ['1', '2', ':', '3', '4'], []⟩ (by decide)

/-! ## Claim C10 : timestamps are stored verbatim, validation is deferred -/

/-- C10: a pipe-delimited line with at least two fields, non-empty text and a
non-empty second field in which the timestamp pattern finds no match yields a
segment whose timestamp is the stripped second field stored verbatim — the
parser performs no format validation — and on such a timestamp (the claim's
example `"garbage"`) the later `parse_timestamp` call made during clip
extraction fails. -/
theorem C10_timestamp_not_validated (line t r : List Char) (rest : List (List Char))
    (hsplit : splitOnChar '|' line = t :: r :: rest)
    (htext : stripWs t ≠ []) (hts : stripWs r ≠ [])
    (hnots : findTs (stripWs r) = none) :
    parseLine line = some ⟨stripWs t, stripWs r, stripWs (rest.headD [])⟩ ∧
    parse_timestamp "garbage" = none := by
  have hpipe : parsePipeLine line =
      some ⟨stripWs t, stripWs r, stripWs (rest.headD [])⟩ := by
    unfold parsePipeLine
    simp only [hsplit, List.length_cons, List.getD_cons_zero, List.getD_cons_succ]
    rw [if_pos (by omega : 2 ≤ rest.length + 1 + 1)]
    rw [hnots]
    rw [if_pos ⟨htext, hts⟩]
    cases rest with
    | nil =>
      rw [if_neg (by norm_num : ¬ (2 : ℕ) < ([] : List (List Char)).length + 1 + 1)]
      rfl
    | cons d rest' =>
      rw [if_pos (by simp only [List.length_cons]; omega : (2 : ℕ) < (d :: rest').length + 1 + 1)]
      rfl
  refine ⟨?_, by decide⟩
  unfold parseLine
  rw [hpipe]
  rfl

/-- Witness for C10 at the claim's example line. -/
theorem C10_witness :
    parseLine ("some text|garbage".data) =
      some ⟨"some text".data, "garbage".data, []⟩ ∧
    parse_timestamp "garbage" = none := by
  have h := C10_timestamp_not_validated ("some text|garbage".data)
    ("some text".data) ("garbage".data) [] (by decide) (by decide) (by decide) (by decide)
  exact ⟨h.1.trans (by decide), h.2⟩

/-! ## Claim C8 : timestamp round-trip -/

theorem dropWhile_all_neg {p : Char → Bool} {xs : List Char}
    (h : ∀ c ∈ xs, p c = false) : xs.dropWhile p = xs := by
  cases xs with
  | nil => rfl
  | cons c t => simp [List.dropWhile_cons, h c (List.mem_cons_self c t)]

theorem pyStripGen_id {p : Char → Bool} {xs : List Char}
    (h : ∀ c ∈ xs, p c = false) : pyStripGen p xs = xs := by
  unfold pyStripGen dropTrailing
  rw [dropWhile_all_neg h,
    dropWhile_all_neg (fun c hc => h c (List.mem_reverse.mp hc)), List.reverse_reverse]

theorem digit_not_space {c : Char} (h : isDigitChar c = true) : isSpaceChar c = false := by
  simp only [isDigitChar, Bool.and_eq_true, decide_eq_true_eq] at h
  simp only [isSpaceChar, Bool.or_eq_false_iff, decide_eq_false_iff_not]
  omega

theorem digit_not_brk {c : Char} (h : isDigitChar c = true) : isBrkChar c = false := by
  simp only [isDigitChar, Bool.and_eq_true, decide_eq_true_eq] at h
  simp only [isBrkChar, Bool.or_eq_false_iff, decide_eq_false_iff_not]
  omega

theorem digit_ne_colon {c : Char} (h : isDigitChar c = true) : c ≠ ':' := by
  intro hc
  rw [hc] at h
  exact absurd h (by decide)

theorem splitOnChar_ne_nil (sep : Char) (xs : List Char) : splitOnChar sep xs ≠ [] := by
  cases xs with
  | nil => simp [splitOnChar]
  | cons c t =>
    unfold splitOnChar
    cases h : splitOnChar sep t with
    | nil => simp
    | cons g gs => by_cases hc : c = sep <;> simp [hc]

theorem splitOnChar_no_sep {sep : Char} {xs : List Char} (h : sep ∉ xs) :
    splitOnChar sep xs = [xs] := by
  induction xs with
  | nil => rfl
  | cons c t ih =>
    have hc : ¬ (c = sep) := fun hh => h (by rw [hh]; exact List.mem_cons_self _ _)
    have ht : sep ∉ t := fun hh => h (List.mem_cons_of_mem _ hh)
    unfold splitOnChar
    rw [ih ht]
    simp [hc]

theorem splitOnChar_append {sep : Char} {a : List Char} (h : sep ∉ a) (t : List Char) :
    splitOnChar sep (a ++ sep :: t) = a :: splitOnChar sep t := by
  induction a with
  | nil =>
    simp only [List.nil_append, splitOnChar]
    cases hsp : splitOnChar sep t with
    | nil => exact absurd hsp (splitOnChar_ne_nil sep t)
    | cons g gs => simp
  | cons c a' ih =>
    have hc : ¬ (c = sep) := fun hh => h (by rw [hh]; exact List.mem_cons_self _ _)
    have ha' : sep ∉ a' := fun hh => h (List.mem_cons_of_mem _ hh)
    simp only [List.cons_append, splitOnChar, List.append_eq]
    rw [ih ha']
    simp [hc]

theorem pyInt?_digits {a : List Char} (hne : a ≠ [])
    (hdig : ∀ c ∈ a, isDigitChar c = true) :
    pyInt? a = some (digitsVal a : Int) := by
  have hstrip : stripWs a = a :=
    pyStripGen_id fun c hc => digit_not_space (hdig c hc)
  unfold pyInt?
  rw [show stripWs a = a from hstrip]
  cases a with
  | nil => exact absurd rfl hne
  | cons d ds =>
    have hd := hdig d (List.mem_cons_self d ds)
    split
    · next ds' heq =>
      exfalso
      injection heq with h1 _
      rw [h1] at hd
      exact absurd hd (by decide)
    · next ds' heq =>
      exfalso
      injection heq with h1 _
      rw [h1] at hd
      exact absurd hd (by decide)
    · rw [if_pos ⟨List.cons_ne_nil d ds, List.all_eq_true.mpr hdig⟩]

theorem parseTs_pair {a b : List Char}
    (ha : a ≠ []) (hda : ∀ c ∈ a, isDigitChar c = true)
    (hb : b ≠ []) (hdb : ∀ c ∈ b, isDigitChar c = true) :
    parseTimestampChars (a ++ ':' :: b) =
      some ((digitsVal a : Int) * 60 + (digitsVal b : Int)) := by
  have hnospace : ∀ c ∈ a ++ ':' :: b, isSpaceChar c = false := by
    intro c hc
    rcases List.mem_append.mp hc with h | h
    · exact digit_not_space (hda c h)
    · rcases List.mem_cons.mp h with rfl | h
      · decide
      · exact digit_not_space (hdb c h)
  have hnobrk : ∀ c ∈ a ++ ':' :: b, isBrkChar c = false := by
    intro c hc
    rcases List.mem_append.mp hc with h | h
    · exact digit_not_brk (hda c h)
    · rcases List.mem_cons.mp h with rfl | h
      · decide
      · exact digit_not_brk (hdb c h)
  have hcola : ':' ∉ a := fun hmem => digit_ne_colon (hda ':' hmem) rfl
  have hcolb : ':' ∉ b := fun hmem => digit_ne_colon (hdb ':' hmem) rfl
  unfold parseTimestampChars stripWs stripBrk
  simp only [pyStripGen_id hnospace, pyStripGen_id hnobrk]
  rw [splitOnChar_append hcola, splitOnChar_no_sep hcolb]
  simp only [pyInt?_digits ha hda, pyInt?_digits hb hdb, Option.bind_eq_bind,
    Option.some_bind]
  rfl

theorem parseTs_triple {a b c : List Char}
    (ha : a ≠ []) (hda : ∀ ch ∈ a, isDigitChar ch = true)
    (hb : b ≠ []) (hdb : ∀ ch ∈ b, isDigitChar ch = true)
    (hc : c ≠ []) (hdc : ∀ ch ∈ c, isDigitChar ch = true) :
    parseTimestampChars (a ++ ':' :: (b ++ ':' :: c)) =
      some ((digitsVal a : Int) * 3600 + (digitsVal b : Int) * 60 + (digitsVal c : Int)) := by
  have hall : ∀ ch ∈ a ++ ':' :: (b ++ ':' :: c),
      isDigitChar ch = true ∨ ch = ':' := by
    intro ch hch
    rcases List.mem_append.mp hch with h | h
    · exact .inl (hda ch h)
    · rcases List.mem_cons.mp h with rfl | h
      · exact .inr rfl
      · rcases List.mem_append.mp h with h | h
        · exact .inl (hdb ch h)
        · rcases List.mem_cons.mp h with rfl | h
          · exact .inr rfl
          · exact .inl (hdc ch h)
  have hnospace : ∀ ch ∈ a ++ ':' :: (b ++ ':' :: c), isSpaceChar ch = false := by
    intro ch hch
    rcases hall ch hch with h | rfl
    · exact digit_not_space h
    · decide
  have hnobrk : ∀ ch ∈ a ++ ':' :: (b ++ ':' :: c), isBrkChar ch = false := by
    intro ch hch
    rcases hall ch hch with h | rfl
    · exact digit_not_brk h
    · decide
  have hcola : ':' ∉ a := fun hmem => digit_ne_colon (hda ':' hmem) rfl
  have hcolb : ':' ∉ b := fun hmem => digit_ne_colon (hdb ':' hmem) rfl
  have hcolc : ':' ∉ c := fun hmem => digit_ne_colon (hdc ':' hmem) rfl
  unfold parseTimestampChars stripWs stripBrk
  simp only [pyStripGen_id hnospace, pyStripGen_id hnobrk]
  rw [splitOnChar_append hcola, splitOnChar_append hcolb, splitOnChar_no_sep hcolc]
  simp only [pyInt?_digits ha hda, pyInt?_digits hb hdb, pyInt?_digits hc hdc,
    Option.bind_eq_bind, Option.some_bind]
  rfl

theorem fdiv_natCast (m n : Nat) : ((m : Int)).fdiv (n : Int) = ((m / n : Nat) : Int) :=
  (Int.ofNat_fdiv m n).symm

theorem emod_natCast (m n : Nat) : ((m : Int)).emod (n : Int) = ((m % n : Nat) : Int) := rfl

theorem pyFmt02_natCast (n : Nat) : pyFmt02 (n : Int) = fmt02N n := by
  unfold pyFmt02 fmt02N
  rw [if_neg (Int.not_lt.mpr (Int.natCast_nonneg n))]
  by_cases h : n < 10
  · rw [if_pos (by exact_mod_cast h), if_pos h, Int.toNat_ofNat]
  · rw [if_neg (by exact_mod_cast h), if_neg h, Int.toNat_ofNat]

theorem format_natCast (T : Nat) :
    format_timestamp_for_ffmpeg (T : Int) =
      fmt02N (T / 3600) ++ ':' :: fmt02N (T % 3600 / 60) ++ ':' :: fmt02N (T % 60) := by
  unfold format_timestamp_for_ffmpeg
  rw [show ((3600 : Int)) = ((3600 : Nat) : Int) from rfl,
    show ((60 : Int)) = ((60 : Nat) : Int) from rfl]
  rw [fdiv_natCast, emod_natCast, fdiv_natCast, emod_natCast]
  simp only [pyFmt02_natCast]

/-- C8: for every well-formed `MM:SS` timestamp (digit fields, in-range
values) the parse/format round trip yields the normalised `00:MM:SS` form,
and for every well-formed `HH:MM:SS` timestamp it yields the normalised
zero-padded `HH:MM:SS` form. -/
theorem C8_timestamp_roundtrip (s : String) :
    (∀ a b, s.data = a ++ ':' :: b →
      a ≠ [] → (∀ ch ∈ a, isDigitChar ch = true) →
      b ≠ [] → (∀ ch ∈ b, isDigitChar ch = true) →
      digitsVal a < 60 → digitsVal b < 60 →
      parse_timestamp s = some ((digitsVal a : Int) * 60 + (digitsVal b : Int)) ∧
      format_timestamp_for_ffmpeg ((digitsVal a : Int) * 60 + (digitsVal b : Int)) =
        normalizeHMS 0 (digitsVal a) (digitsVal b)) ∧
    (∀ a b c, s.data = a ++ ':' :: (b ++ ':' :: c) →
      a ≠ [] → (∀ ch ∈ a, isDigitChar ch = true) →
      b ≠ [] → (∀ ch ∈ b, isDigitChar ch = true) →
      c ≠ [] → (∀ ch ∈ c, isDigitChar ch = true) →
      digitsVal b < 60 → digitsVal c < 60 →
      parse_timestamp s =
        some ((digitsVal a : Int) * 3600 + (digitsVal b : Int) * 60 + (digitsVal c : Int)) ∧
      format_timestamp_for_ffmpeg
          ((digitsVal a : Int) * 3600 + (digitsVal b : Int) * 60 + (digitsVal c : Int)) =
        normalizeHMS (digitsVal a) (digitsVal b) (digitsVal c)) := by
  constructor
  · intro a b hdata ha hda hb hdb hva hvb
    constructor
    · unfold parse_timestamp
      rw [hdata]
      exact parseTs_pair ha hda hb hdb
    · have hcast : ((digitsVal a : Int) * 60 + (digitsVal b : Int)) =
          ((digitsVal a * 60 + digitsVal b : Nat) : Int) := by push_cast; ring
      rw [hcast, format_natCast]
      unfold normalizeHMS
      rw [show (digitsVal a * 60 + digitsVal b) / 3600 = 0 from by omega,
        show (digitsVal a * 60 + digitsVal b) % 3600 / 60 = digitsVal a from by omega,
        show (digitsVal a * 60 + digitsVal b) % 60 = digitsVal b from by omega]
  · intro a b c hdata ha hda hb hdb hc hdc hvb hvc
    constructor
    · unfold parse_timestamp
      rw [hdata]
      exact parseTs_triple ha hda hb hdb hc hdc
    · have hcast : ((digitsVal a : Int) * 3600 + (digitsVal b : Int) * 60 + (digitsVal c : Int)) =
          ((digitsVal a * 3600 + digitsVal b * 60 + digitsVal c : Nat) : Int) := by
        push_cast; ring
      rw [hcast, format_natCast]
      unfold normalizeHMS
      rw [show (digitsVal a * 3600 + digitsVal b * 60 + digitsVal c) / 3600 = digitsVal a
          from by omega,
        show (digitsVal a * 3600 + digitsVal b * 60 + digitsVal c) % 3600 / 60 = digitsVal b
          from by omega,
        show (digitsVal a * 3600 + digitsVal b * 60 + digitsVal c) % 60 = digitsVal c
          from by omega]

/-- Witness for C8 at `"01:05"`: parsing yields 65 seconds and formatting
yields the normalised `"00:01:05"`. -/
theorem C8_witness :
    parse_timestamp "01:05" =
      some ((digitsVal ['0', '1'] : Int) * 60 + (digitsVal ['0', '5'] : Int)) ∧
    format_timestamp_for_ffmpeg
        ((digitsVal ['0', '1'] : Int) * 60 + (digitsVal ['0', '5'] : Int)) =
      normalizeHMS 0 (digitsVal ['0', '1']) (digitsVal ['0', '5']) :=
  (C8_timestamp_roundtrip "01:05").1 ['0', '1'] ['0', '5'] (by decide) (by decide)
    (by decide) (by decide) (by decide) (by decide) (by decide)

end SmartClipper
